import Mathlib

/-!
# Verification of the proximity-scoring ETL core of Neighborhood_Insights

Shallow embedding of `etl/calculate_distances.py`: the POI loader
(`load_pois`), the nearest-POI resolver (`find_nearest_pois`, which uses a
BallTree with the haversine metric) and the composite scorer
(`calculate_scores`).

Modelling conventions:
* Python floats are modelled as exact rationals (`ℚ`).
* `round(x, k)` is modelled as `⌊x * 10^k + 1/2⌋ / 10^k` (round half-up;
  this is Mathlib's `round` by `round_eq`).  Python's `round` uses banker's
  rounding at exact halfway points; no property proved here depends on the
  tie-breaking direction of rounding.
* The BallTree's haversine metric is transcendental, so the angular
  distance function of the spatial index is an explicit parameter
  `a : ℚ → ℚ → ℚ → ℚ → ℚ` (lat₁ lon₁ lat₂ lon₂ ↦ angular distance).
  `BallTree.query(coord, k=1)` returns the minimum of the metric over the
  indexed points together with an index attaining it; it is modelled as a
  fold computing the first minimiser (`nearestAux`).
* A CSV cell that `np.radians` cannot handle (a string where a float is
  expected) is the `Cell.txt` constructor; `pd.read_csv` itself accepts it,
  and the resulting `TypeError` raised later inside `find_nearest_pois`
  when `np.radians` hits the object-dtype column is modelled by the
  `Except.error` branch of `findNearestPois`.
-/

namespace NI

/-- The four POI categories of `poi_files` in `load_pois`. -/
inductive Category
  | schools
  | kindergartens
  | clinics
  | bus_stops
deriving DecidableEq, Repr, Fintype

/-- Insertion order of the `poi_files` dict in `load_pois`, which is also
the key order of the `max_distances` dict in `calculate_scores`. -/
def categoryOrder : List Category :=
  [Category.schools, Category.kindergartens, Category.clinics, Category.bus_stops]

/-- A raw CSV cell: either a numeric value or unparseable text.  `pd.read_csv`
loads both; text makes the column object-dtype. -/
inductive Cell
  | num (q : ℚ)
  | txt (s : String)
deriving DecidableEq, Repr

/-- A row of a POI CSV after `pd.read_csv`, restricted to the columns
`load_pois` selects (`id`, `name_he`, `latitude`, `longitude`). -/
structure RawRow where
  id : Int
  name_he : String
  latitude : Cell
  longitude : Cell
deriving DecidableEq, Repr

/-- A POI CSV file as seen by `load_pois`: whether both the `latitude` and
`longitude` columns are present, and its rows. -/
structure RawTable where
  hasLatLon : Bool
  rows : List RawRow
deriving DecidableEq, Repr

/-- A POI with numeric coordinates (the representation inside the BallTree
computation once `np.radians` has accepted the columns). -/
structure POI where
  id : Int
  name_he : String
  lat : ℚ
  lon : ℚ
deriving DecidableEq, Repr

/-- A neighborhood centroid row of `create_neighborhoods`. -/
structure Neighborhood where
  id : Int
  name_he : String
  name_en : String
  city : String
  lat : ℚ
  lon : ℚ
deriving DecidableEq, Repr

/-- Association-list lookup keyed by `Category` (a pandas DataFrame cannot
hold two columns of the same name, and a dict cannot hold two equal keys). -/
def lookupCat {β : Type} (c : Category) : List (Category × β) → Option β
  | [] => none
  | (c', v) :: rest => if c' = c then some v else lookupCat c rest

/-- Number of entries of an association list carrying key `c`. -/
def countCat {β : Type} (c : Category) : List (Category × β) → Nat
  | [] => 0
  | (c', _) :: rest => (if c' = c then 1 else 0) + countCat c rest

/-- `round(x, 2)` of `find_nearest_pois` (see the rounding convention above). -/
def round2 (q : ℚ) : ℚ := ((⌊q * 100 + 1/2⌋ : ℤ) : ℚ) / 100

/-- `round(x, 1)` of `calculate_scores`. -/
def round1 (q : ℚ) : ℚ := ((⌊q * 10 + 1/2⌋ : ℤ) : ℚ) / 10

/-- What `load_pois` does for one `(poi_type, filename)` entry: `none` when
the file is missing (`filepath.exists()` false) or when the `latitude` /
`longitude` columns are absent; otherwise the selected rows, unchanged —
the loader performs no row-level filtering. -/
def loadAux (files : Category → Option RawTable) (c : Category) : Option (List RawRow) :=
  match files c with
  | none => none
  | some t => if t.hasLatLon then some t.rows else none

/-- `load_pois`: iterate the four categories in dict order, keeping those
whose file exists and has both coordinate columns.  (The source also adds a
constant `type` column, which carries no information beyond the key.) -/
def loadPois (files : Category → Option RawTable) : List (Category × List RawRow) :=
  categoryOrder.filterMap fun c => (loadAux files c).map fun rows => (c, rows)

/-- `np.radians` applied to one cell: succeeds exactly on numeric values.
(The radian conversion itself is folded into the abstract metric `a`.) -/
def parseCell : Cell → Option ℚ
  | Cell.num q => some q
  | Cell.txt _ => none

/-- A raw row as a numeric POI, when both coordinates are numeric. -/
def parseRow (r : RawRow) : Option POI :=
  match parseCell r.latitude, parseCell r.longitude with
  | some la, some lo => some ⟨r.id, r.name_he, la, lo⟩
  | _, _ => none

/-- `np.radians(poi_df[['latitude','longitude']].values)`: fails (raises
`TypeError`) as soon as any cell of the two columns is non-numeric. -/
def parseRows : List RawRow → Option (List POI)
  | [] => some []
  | r :: rs =>
    match parseRow r, parseRows rs with
    | some p, some ps => some (p :: ps)
    | _, _ => none

/-- The angular distance the index reports from a neighborhood to a POI. -/
def angTo (a : ℚ → ℚ → ℚ → ℚ → ℚ) (n : Neighborhood) (p : POI) : ℚ :=
  a n.lat n.lon p.lat p.lon

/-- Fold of `BallTree.query(·, k=1)`: carries the best (distance, point)
pair so far, replacing it only on a strictly smaller distance, so the first
minimiser in index order is returned. -/
def nearestAux (a : ℚ → ℚ → ℚ → ℚ → ℚ) (n : Neighborhood) (best : ℚ × POI) :
    List POI → ℚ × POI
  | [] => best
  | p :: ps =>
    nearestAux a n (if angTo a n p < best.1 then (angTo a n p, p) else best) ps

/-- `tree.query(hood_coord, k=1)`: minimum angular distance over the indexed
POIs and the point attaining it; `none` on an empty index. -/
def nearestPoi (a : ℚ → ℚ → ℚ → ℚ → ℚ) (n : Neighborhood) :
    List POI → Option (ℚ × POI)
  | [] => none
  | p :: ps => some (nearestAux a n (angTo a n p, p) ps)

/-- One iteration of the neighborhood loop of `find_nearest_pois`:
`distance_km = dist * 6371` rounded to 2 decimals, and the `name_he` of the
nearest POI.  (The `[]` case never arises: the caller skips empty
categories.) -/
def nearestResult (a : ℚ → ℚ → ℚ → ℚ → ℚ) (n : Neighborhood) (ps : List POI) :
    ℚ × String :=
  match nearestPoi a n ps with
  | none => (0, "")
  | some (d, p) => (round2 (d * 6371), p.name_he)

/-- `find_nearest_pois`: for each loaded category, skip it when it has zero
rows (`continue`), abort with a `TypeError` when `np.radians` meets a
non-numeric cell, and otherwise append the per-neighborhood column of
`(distance_km, nearest name)` pairs. -/
def findNearestPois (a : ℚ → ℚ → ℚ → ℚ → ℚ) (nbhds : List Neighborhood) :
    List (Category × List RawRow) →
      Except String (List (Category × List (ℚ × String)))
  | [] => Except.ok []
  | (c, rows) :: rest =>
    if rows = [] then findNearestPois a nbhds rest
    else
      match parseRows rows with
      | none => Except.error "TypeError: radians is unsupported for str input"
      | some ps =>
        (findNearestPois a nbhds rest).map
          fun r => (c, nbhds.map fun n => nearestResult a n ps) :: r

/-- The `max_distances` calibration table of `calculate_scores`. -/
def maxDist : Category → ℚ
  | Category.schools => 2
  | Category.kindergartens => 1
  | Category.clinics => 3
  | Category.bus_stops => 1/2

/-- The per-category linear-decay score of `calculate_scores`:
`max(0, 100 * (1 - distance / max_dist))`. -/
def rawScore (c : Category) (d : ℚ) : ℚ :=
  max 0 (100 * (1 - d / maxDist c))

/-- Value of a distance column at row `j` (in an actual run every column has
exactly one entry per neighborhood, so the default is never consulted). -/
def colVal (col : List (ℚ × String)) (j : Nat) : ℚ × String :=
  col.getD j (0, "")

/-- The `score_components` of one row: iterate the `max_distances` keys in
dict order and keep a component exactly when the category's distance column
is present in the table (`if distance_col in df.columns`) — a table-level
test, identical for every row. -/
def rowComponents (cols : List (Category × List (ℚ × String))) (j : Nat) :
    List (Category × ℚ) :=
  categoryOrder.filterMap fun c =>
    (lookupCat c cols).map fun col => (c, rawScore c (colVal col j).1)

/-- One iteration of the row loop of `calculate_scores`:
`round(np.mean(score_components) if score_components else 0, 1)`, where
`score_components` is `(rowComponents cols j).map Prod.snd`. -/
def scoreRow (cols : List (Category × List (ℚ × String))) (j : Nat) : ℚ :=
  round1 (if (rowComponents cols j).map Prod.snd = [] then 0
          else ((rowComponents cols j).map Prod.snd).sum /
            ((((rowComponents cols j).map Prod.snd)).length : ℚ))

/-- `calculate_scores`: the `composite_score` column, one value per row. -/
def calculateScores (cols : List (Category × List (ℚ × String))) (nRows : Nat) :
    List ℚ :=
  (List.range nRows).map (scoreRow cols)

/-- `create_neighborhoods`: the fixed sample dataset. -/
def createNeighborhoods : List Neighborhood :=
  [⟨1, "רמת אביב", "Ramat Aviv", "תל אביב", 32.113, 34.800⟩,
   ⟨2, "גבעתיים", "Givatayim", "גבעתיים", 32.073, 34.811⟩,
   ⟨3, "רחביה", "Rehavia", "ירושלים", 31.771, 35.214⟩,
   ⟨4, "כרמל", "Carmel", "חיפה", 32.794, 34.989⟩,
   ⟨5, "נווה שאנן", "Neve Shaanan", "תל אביב", 32.058, 34.764⟩,
   ⟨6, "בקעה", "Baka", "ירושלים", 31.756, 35.206⟩,
   ⟨7, "הדר", "Hadar", "חיפה", 32.810, 34.994⟩,
   ⟨8, "פלורנטין", "Florentin", "תל אביב", 32.051, 34.768⟩,
   ⟨9, "טלביה", "Talbieh", "ירושלים", 31.770, 35.225⟩,
   ⟨10, "עיר ימים", "Ir Yamim", "נתניה", 32.327, 34.857⟩]

/-- The compute core of `main`, up to file output: load the POI tables,
return early when none loaded (`if not pois: return`), otherwise run the
resolver and the scorer over a neighborhood table. -/
def pipeline (a : ℚ → ℚ → ℚ → ℚ → ℚ) (files : Category → Option RawTable)
    (nbhds : List Neighborhood) :
    Except String (Option (List (Category × List (ℚ × String)) × List ℚ)) :=
  if loadPois files = [] then Except.ok none
  else
    (findNearestPois a nbhds (loadPois files)).map
      fun cols => some (cols, calculateScores cols nbhds.length)

/-- `main`'s compute core on the sample neighborhood dataset. -/
def runPipeline (a : ℚ → ℚ → ℚ → ℚ → ℚ) (files : Category → Option RawTable) :
    Except String (Option (List (Category × List (ℚ × String)) × List ℚ)) :=
  pipeline a files createNeighborhoods

/-! Concrete fixtures used to exercise the definitions on closed inputs. -/

/-- Fixture: a stand-in angular metric (squared euclidean in coordinate
space), used where the haversine metric of the index is abstract. -/
def wMetric : ℚ → ℚ → ℚ → ℚ → ℚ := fun la lo lb lob => (la - lb) ^ 2 + (lo - lob) ^ 2

/-- Fixture: a neighborhood at the origin. -/
def wN : Neighborhood := ⟨1, "שכונה", "Hood", "עיר", 0, 0⟩

/-- Fixture: a well-formed POI row at (1, 0). -/
def wRow1 : RawRow := ⟨1, "a", Cell.num 1, Cell.num 0⟩

/-- Fixture: a well-formed POI row at (2, 2). -/
def wRow2 : RawRow := ⟨2, "b", Cell.num 2, Cell.num 2⟩

/-- Fixture: a row whose latitude cell is unparseable text. -/
def wBadRow : RawRow := ⟨3, "c", Cell.txt "abc", Cell.num 0⟩

/-- Fixture: a two-row schools table. -/
def wRows : List RawRow := [wRow1, wRow2]

/-- Fixture: one loaded category. -/
def wPois : List (Category × List RawRow) := [(Category.schools, wRows)]

/-- Fixture: two loaded categories, the second one empty. -/
def wPois5 : List (Category × List RawRow) :=
  [(Category.schools, wRows), (Category.clinics, [])]

/-- Fixture: the parsed form of `wRows`. -/
def wPs : List POI := [⟨1, "a", 1, 0⟩, ⟨2, "b", 2, 2⟩]

/-- Fixture: the resolver's output on `wPois` (and on `wPois5`, whose empty
clinics category is skipped) over the single neighborhood `wN`. -/
def wRes : List (Category × List (ℚ × String)) :=
  [(Category.schools, [wN].map fun n => nearestResult wMetric n wPs)]

/-- Fixture: a file system carrying only a schools file whose second row is
malformed. -/
def wBadFiles : Category → Option RawTable := fun c =>
  if c = Category.schools then some ⟨true, [wRow1, wBadRow]⟩ else none

/-- Fixture: a file system carrying only a well-formed schools file. -/
def wGoodFiles : Category → Option RawTable := fun c =>
  if c = Category.schools then some ⟨true, wRows⟩ else none

/-- Fixture: one distance column with one row. -/
def wCols : List (Category × List (ℚ × String)) := [(Category.schools, [(1, "x")])]

/-- Every calibration constant of `max_distances` is positive. -/
theorem maxDist_pos (c : Category) : 0 < maxDist c := by
  cases c <;> norm_num [maxDist]

/-- C4: for every category and every distance `d ≥ 0`, the per-category raw
score equals `max 0 (100 * (1 - d / max_dist))`; it is exactly 100 at
`d = 0`, exactly 0 once `d` reaches the calibration cutoff, and never
negative. -/
theorem rawScore_linear_decay (c : Category) (d : ℚ) (hd : 0 ≤ d) :
    rawScore c d = max 0 (100 * (1 - d / maxDist c)) ∧
    (d = 0 → rawScore c d = 100) ∧
    (maxDist c ≤ d → rawScore c d = 0) ∧
    0 ≤ rawScore c d := by
  have hm : 0 < maxDist c := maxDist_pos c
  refine ⟨rfl, ?_, ?_, le_max_left _ _⟩
  · rintro rfl
    simp [rawScore]
  · intro hcut
    have h1 : (1 : ℚ) ≤ d / maxDist c := (one_le_div hm).mpr hcut
    have h2 : 100 * (1 - d / maxDist c) ≤ 0 := by nlinarith
    simpa [rawScore] using max_eq_left h2

/-- Witness for C4 at the clinics category and distance 1. -/
theorem rawScore_linear_decay_witness :
    rawScore Category.clinics 1 = max 0 (100 * (1 - 1 / maxDist Category.clinics)) ∧
    ((1 : ℚ) = 0 → rawScore Category.clinics 1 = 100) ∧
    (maxDist Category.clinics ≤ 1 → rawScore Category.clinics 1 = 0) ∧
    0 ≤ rawScore Category.clinics 1 :=
  rawScore_linear_decay Category.clinics 1 (by norm_num)

/-- The fold of `nearestAux` returns its accumulator or one of the list's
`(angular distance, point)` pairs, never exceeds the accumulator's distance,
and is a lower bound of the distances of the whole list. -/
theorem nearestAux_spec (a : ℚ → ℚ → ℚ → ℚ → ℚ) (n : Neighborhood) :
    ∀ (ps : List POI) (b : ℚ × POI),
      (nearestAux a n b ps = b ∨ ∃ p ∈ ps, nearestAux a n b ps = (angTo a n p, p)) ∧
      (nearestAux a n b ps).1 ≤ b.1 ∧
      ∀ q ∈ ps, (nearestAux a n b ps).1 ≤ angTo a n q
  | [], b => by simp [nearestAux]
  | p :: ps, b => by
    have ih := nearestAux_spec a n ps (if angTo a n p < b.1 then (angTo a n p, p) else b)
    rw [nearestAux]
    by_cases h : angTo a n p < b.1
    · rw [if_pos h] at ih ⊢
      obtain ⟨hmem, hle, hall⟩ := ih
      refine ⟨?_, hle.trans h.le, ?_⟩
      · rcases hmem with heq | ⟨q, hq, heq⟩
        · exact Or.inr ⟨p, List.mem_cons_self _ _, heq⟩
        · exact Or.inr ⟨q, List.mem_cons_of_mem _ hq, heq⟩
      · intro q hq
        rcases List.mem_cons.mp hq with rfl | hq'
        · exact hle
        · exact hall q hq'
    · rw [if_neg h] at ih ⊢
      obtain ⟨hmem, hle, hall⟩ := ih
      refine ⟨?_, hle, ?_⟩
      · rcases hmem with heq | ⟨q, hq, heq⟩
        · exact Or.inl heq
        · exact Or.inr ⟨q, List.mem_cons_of_mem _ hq, heq⟩
      · intro q hq
        rcases List.mem_cons.mp hq with rfl | hq'
        · exact hle.trans (not_lt.mp h)
        · exact hall q hq'

/-- On a nonempty POI list, `nearestResult` reports the rounded kilometre
distance of a minimising POI and that POI's display name. -/
theorem nearestResult_spec (a : ℚ → ℚ → ℚ → ℚ → ℚ) (n : Neighborhood)
    (ps : List POI) (hne : ps ≠ []) :
    ∃ p ∈ ps, (∀ q ∈ ps, angTo a n p ≤ angTo a n q) ∧
      nearestResult a n ps = (round2 (angTo a n p * 6371), p.name_he) := by
  match ps, hne with
  | p0 :: ps', _ =>
    obtain ⟨hmem, hle, hall⟩ := nearestAux_spec a n ps' (angTo a n p0, p0)
    rcases hmem with heq | ⟨q, hq, heq⟩
    · refine ⟨p0, List.mem_cons_self _ _, ?_, ?_⟩
      · intro q hq
        rcases List.mem_cons.mp hq with rfl | hq'
        · exact le_rfl
        · have h2 := hall q hq'
          rw [heq] at h2
          exact h2
      · simp [nearestResult, nearestPoi, heq]
    · refine ⟨q, List.mem_cons_of_mem _ hq, ?_, ?_⟩
      · intro r hr
        rcases List.mem_cons.mp hr with rfl | hr'
        · have h2 := hle
          rw [heq] at h2
          exact h2
        · have h2 := hall r hr'
          rw [heq] at h2
          exact h2
      · simp [nearestResult, nearestPoi, heq]

/-- A nonempty raw-row list that parses in full parses to a nonempty POI list. -/
theorem parseRows_ne_nil {rows : List RawRow} {ps : List POI}
    (h : parseRows rows = some ps) : rows ≠ [] → ps ≠ [] := by
  intro hne
  match rows, hne with
  | r :: rs, _ =>
    rw [parseRows] at h
    cases hp : parseRow r <;> rw [hp] at h
    · exact absurd h (by simp)
    · cases hps : parseRows rs <;> rw [hps] at h
      · exact absurd h (by simp)
      · injection h with h'
        subst h'
        exact List.cons_ne_nil _ _

/-- An `Except.map` that lands on `ok` came from an `ok`. -/
theorem exceptMap_ok {α β γ : Type} {f : β → γ} {x : Except α β} {r : γ}
    (h : x.map f = Except.ok r) : ∃ b, x = Except.ok b ∧ r = f b := by
  cases x with
  | error e => simp [Except.map] at h
  | ok b =>
    refine ⟨b, rfl, ?_⟩
    simpa [Except.map] using h.symm

/-- A key absent from an association list has count 0. -/
theorem countCat_eq_zero {β : Type} {c : Category} :
    ∀ {l : List (Category × β)}, c ∉ l.map Prod.fst → countCat c l = 0
  | [], _ => rfl
  | (c', v) :: rest, h => by
    rw [countCat]
    have h1 : c' ≠ c := fun he => h (by simp [he])
    have h2 : c ∉ rest.map Prod.fst := fun he => h (by simp [he])
    simp [h1, countCat_eq_zero h2]

/-- A key absent from an association list looks up to `none`. -/
theorem lookupCat_not_mem {β : Type} {c : Category} :
    ∀ {l : List (Category × β)}, c ∉ l.map Prod.fst → lookupCat c l = none
  | [], _ => rfl
  | (c', v) :: rest, h => by
    rw [lookupCat]
    have h1 : c' ≠ c := fun he => h (by simp [he])
    have h2 : c ∉ rest.map Prod.fst := fun he => h (by simp [he])
    simp [h1, lookupCat_not_mem h2]

/-- Every category present in the resolver's output came from a nonempty
entry of its input. -/
theorem findNearestPois_keys (a : ℚ → ℚ → ℚ → ℚ → ℚ) (nbhds : List Neighborhood) :
    ∀ (pois : List (Category × List RawRow)) (res : List (Category × List (ℚ × String))),
      findNearestPois a nbhds pois = Except.ok res →
      ∀ c, c ∈ res.map Prod.fst → ∃ rows, (c, rows) ∈ pois ∧ rows ≠ []
  | [], res, hok => by
    rw [findNearestPois] at hok
    injection hok with h
    subst h
    intro c hc
    simp at hc
  | (c', rows') :: rest, res, hok => by
    rw [findNearestPois] at hok
    by_cases hr : rows' = []
    · rw [if_pos hr] at hok
      intro c hc
      obtain ⟨rows, hmem, hne⟩ := findNearestPois_keys a nbhds rest res hok c hc
      exact ⟨rows, List.mem_cons_of_mem _ hmem, hne⟩
    · rw [if_neg hr] at hok
      cases hps : parseRows rows' <;> rw [hps] at hok
      · exact absurd hok (by simp)
      · obtain ⟨r', hr', hres⟩ := exceptMap_ok hok
        subst hres
        intro c hc
        rcases List.mem_cons.mp hc with heq | hc'
        · exact heq ▸ ⟨rows', List.mem_cons_self _ _, hr⟩
        · obtain ⟨rows, hmem, hne⟩ := findNearestPois_keys a nbhds rest r' hr' c hc'
          exact ⟨rows, List.mem_cons_of_mem _ hmem, hne⟩

/-- Structure of the resolver's output at a nonempty input category: its
rows parse, the category appears exactly once, and its column is the
per-neighborhood map of `nearestResult`. -/
theorem findNearestPois_lookup (a : ℚ → ℚ → ℚ → ℚ → ℚ) (nbhds : List Neighborhood) :
    ∀ (pois : List (Category × List RawRow)) (res : List (Category × List (ℚ × String)))
      (c : Category) (rows : List RawRow),
      findNearestPois a nbhds pois = Except.ok res →
      (pois.map Prod.fst).Nodup →
      (c, rows) ∈ pois → rows ≠ [] →
      ∃ ps, parseRows rows = some ps ∧
        countCat c res = 1 ∧
        lookupCat c res = some (nbhds.map fun n => nearestResult a n ps)
  | [], res, c, rows, _, _, hmem, _ => absurd hmem (by simp)
  | (c', rows') :: rest, res, c, rows, hok, hnd, hmem, hne => by
    rw [findNearestPois] at hok
    rw [List.map_cons, List.nodup_cons] at hnd
    obtain ⟨hc'nd, hndrest⟩ := hnd
    by_cases hr : rows' = []
    · rw [if_pos hr] at hok
      rcases List.mem_cons.mp hmem with heq | hmem'
      · injection heq with he1 he2
        exact absurd (he2.trans hr) hne
      · exact findNearestPois_lookup a nbhds rest res c rows hok hndrest hmem' hne
    · rw [if_neg hr] at hok
      cases hps : parseRows rows' <;> rw [hps] at hok
      · exact absurd hok (by simp)
      · rename_i ps'
        obtain ⟨r', hr', hres⟩ := exceptMap_ok hok
        subst hres
        rcases List.mem_cons.mp hmem with heq | hmem'
        · injection heq with he1 he2
          subst he1
          subst he2
          have hnotin : c ∉ r'.map Prod.fst := by
            intro hin
            obtain ⟨rws, hrws, _⟩ := findNearestPois_keys a nbhds rest r' hr' c hin
            exact hc'nd (by
              have : c ∈ rest.map Prod.fst := List.mem_map.mpr ⟨(c, rws), hrws, rfl⟩
              exact this)
          refine ⟨ps', hps, ?_, ?_⟩
          · rw [countCat]
            simp [countCat_eq_zero hnotin]
          · rw [lookupCat]
            simp
        · have hcin : c ∈ rest.map Prod.fst := List.mem_map.mpr ⟨(c, rows), hmem', rfl⟩
          have hcne : c' ≠ c := fun he => hc'nd (he ▸ hcin)
          obtain ⟨ps, h1, h2, h3⟩ :=
            findNearestPois_lookup a nbhds rest r' c rows hr' hndrest hmem' hne
          refine ⟨ps, h1, ?_, ?_⟩
          · rw [countCat]
            simp [hcne, h2]
          · rw [lookupCat]
            simp [hcne, h3]

/-- C1: for every neighborhood and every loaded POI category with at least
one POI, a successful resolver run records exactly one column for the
category, with exactly one entry per neighborhood, whose distance is the
index's angular distance to a closest POI multiplied by 6371 and rounded to
2 decimal places, and whose name is that closest POI's display name. -/
theorem resolver_nearest_correct (a : ℚ → ℚ → ℚ → ℚ → ℚ)
    (nbhds : List Neighborhood) (pois : List (Category × List RawRow))
    (res : List (Category × List (ℚ × String)))
    (hok : findNearestPois a nbhds pois = Except.ok res)
    (hnd : (pois.map Prod.fst).Nodup)
    (c : Category) (rows : List RawRow)
    (hmem : (c, rows) ∈ pois) (hne : rows ≠ [])
    (j : Nat) (n : Neighborhood) (hj : nbhds.get? j = some n) :
    ∃ ps col, parseRows rows = some ps ∧
      countCat c res = 1 ∧ lookupCat c res = some col ∧
      col.length = nbhds.length ∧
      ∃ p ∈ ps, (∀ q ∈ ps, angTo a n p ≤ angTo a n q) ∧
        col.get? j = some (round2 (angTo a n p * 6371), p.name_he) := by
  obtain ⟨ps, hps, hcount, hlook⟩ :=
    findNearestPois_lookup a nbhds pois res c rows hok hnd hmem hne
  refine ⟨ps, nbhds.map fun n' => nearestResult a n' ps, hps, hcount, hlook, by simp, ?_⟩
  obtain ⟨p, hp, hmin, heq⟩ := nearestResult_spec a n ps (parseRows_ne_nil hps hne)
  refine ⟨p, hp, hmin, ?_⟩
  rw [List.get?_map, hj]
  simp [heq]

/-- Witness for C1: one neighborhood at the origin, one two-row schools
category; the closest POI under `wMetric` is `wRow1`. -/
theorem resolver_nearest_correct_witness :
    ∃ ps col, parseRows wRows = some ps ∧
      countCat Category.schools wRes = 1 ∧
      lookupCat Category.schools wRes = some col ∧
      col.length = [wN].length ∧
      ∃ p ∈ ps, (∀ q ∈ ps, angTo wMetric wN p ≤ angTo wMetric wN q) ∧
        col.get? 0 = some (round2 (angTo wMetric wN p * 6371), p.name_he) :=
  resolver_nearest_correct wMetric [wN] wPois wRes (by rfl) (by decide)
    Category.schools wRows (by decide) (by decide) 0 wN rfl

/-- C8: for a fixed category the raw score is antitone in the distance. -/
theorem rawScore_antitone (c : Category) (d1 d2 : ℚ) (h : d1 ≤ d2) :
    rawScore c d2 ≤ rawScore c d1 := by
  have hm : 0 < maxDist c := maxDist_pos c
  have hdiv : d1 / maxDist c ≤ d2 / maxDist c := by
    apply div_le_div_of_nonneg_right h hm.le
  have h2 : 100 * (1 - d2 / maxDist c) ≤ 100 * (1 - d1 / maxDist c) := by nlinarith
  exact max_le_max le_rfl h2

/-- Witness for C8 at the schools category, distances 1 ≤ 3. -/
theorem rawScore_antitone_witness :
    rawScore Category.schools 3 ≤ rawScore Category.schools 1 :=
  rawScore_antitone Category.schools 1 3 (by norm_num)

/-- The raw score is never negative. -/
theorem rawScore_nonneg (c : Category) (d : ℚ) : 0 ≤ rawScore c d :=
  le_max_left _ _

/-- The raw score of a nonnegative distance is at most 100. -/
theorem rawScore_le_100 (c : Category) (d : ℚ) (hd : 0 ≤ d) : rawScore c d ≤ 100 := by
  have hm := maxDist_pos c
  have h1 : 0 ≤ d / maxDist c := div_nonneg hd hm.le
  apply max_le (by norm_num)
  nlinarith

/-- A successful association-list lookup is a membership. -/
theorem lookupCat_mem {β : Type} {c : Category} {b : β} :
    ∀ {l : List (Category × β)}, lookupCat c l = some b → (c, b) ∈ l
  | [], h => absurd h (by simp [lookupCat])
  | (c', v) :: rest, h => by
    rw [lookupCat] at h
    by_cases hc : c' = c
    · subst hc
      rw [if_pos rfl] at h
      injection h with h
      subst h
      exact List.mem_cons_self _ _
    · rw [if_neg hc] at h
      exact List.mem_cons_of_mem _ (lookupCat_mem h)

/-- `getD` returns a member of the list or the default. -/
theorem getD_cases {α : Type} : ∀ (l : List α) (j : Nat) (d : α),
    l.getD j d ∈ l ∨ l.getD j d = d
  | [], j, d => Or.inr (by cases j <;> rfl)
  | x :: xs, 0, d => Or.inl (by simp)
  | x :: xs, j + 1, d => by
    rcases getD_cases xs j d with h | h
    · exact Or.inl (by rw [List.getD_cons_succ]; exact List.mem_cons_of_mem _ h)
    · exact Or.inr (by rw [List.getD_cons_succ]; exact h)

/-- `round(x, 1)` of a value in `[0, 100]` stays in `[0, 100]`. -/
theorem round1_bounds {x : ℚ} (h0 : 0 ≤ x) (h1 : x ≤ 100) :
    0 ≤ round1 x ∧ round1 x ≤ 100 := by
  rw [round1]
  have hf0 : (0 : ℤ) ≤ ⌊x * 10 + 1/2⌋ := by
    apply Int.le_floor.mpr
    push_cast
    linarith
  have hfle : ⌊x * 10 + 1/2⌋ ≤ 1000 := by
    have h2 : ((⌊x * 10 + 1/2⌋ : ℤ) : ℚ) ≤ x * 10 + 1/2 := Int.floor_le _
    have h3 : ((⌊x * 10 + 1/2⌋ : ℤ) : ℚ) < 1001 := by linarith
    have h4 : ⌊x * 10 + 1/2⌋ < 1001 := by exact_mod_cast h3
    omega
  constructor
  · apply div_nonneg _ (by norm_num)
    exact_mod_cast hf0
  · rw [div_le_iff (by norm_num : (0:ℚ) < 10)]
    have h5 : ((⌊x * 10 + 1/2⌋ : ℤ) : ℚ) ≤ 1000 := by exact_mod_cast hfle
    linarith

/-- `round(0, 1) = 0`. -/
theorem round1_zero : round1 0 = 0 := by
  rw [round1]
  have h1 : (0 * 10 + 1/2 : ℚ) = 1/2 := by norm_num
  have h2 : ⌊(0 * 10 + 1/2 : ℚ)⌋ = 0 := by
    rw [h1, Int.floor_eq_zero_iff]
    constructor <;> norm_num
  rw [h2]
  norm_num

/-- Each `score_components` entry is a raw score of a recorded distance,
hence bounded when the recorded distances are nonnegative. -/
theorem rowComponents_bounds (cols : List (Category × List (ℚ × String)))
    (hd : ∀ e ∈ cols, ∀ v ∈ e.2, 0 ≤ v.1) (j : Nat) :
    ∀ x ∈ (rowComponents cols j).map Prod.snd, 0 ≤ x ∧ x ≤ 100 := by
  intro x hx
  obtain ⟨p, hp, hpx⟩ := List.mem_map.mp hx
  obtain ⟨c, _, hc⟩ := List.mem_filterMap.mp hp
  cases hlook : lookupCat c cols with
  | none =>
    rw [hlook] at hc
    exact absurd hc (by simp)
  | some col =>
    rw [hlook] at hc
    simp only [Option.map_some', Option.some.injEq] at hc
    subst hc
    subst hpx
    have hnn : 0 ≤ (colVal col j).1 := by
      rcases getD_cases col j (0, "") with hm | hdft
      · exact hd _ (lookupCat_mem hlook) _ hm
      · rw [colVal, hdft]
    exact ⟨rawScore_nonneg _ _, rawScore_le_100 _ _ hnn⟩

/-- One composite score is bounded when its recorded distances are. -/
theorem scoreRow_in_range (cols : List (Category × List (ℚ × String)))
    (hd : ∀ e ∈ cols, ∀ v ∈ e.2, 0 ≤ v.1) (j : Nat) :
    0 ≤ scoreRow cols j ∧ scoreRow cols j ≤ 100 := by
  have hb := rowComponents_bounds cols hd j
  rw [scoreRow]
  by_cases h : (rowComponents cols j).map Prod.snd = []
  · rw [if_pos h, round1_zero]
    norm_num
  · rw [if_neg h]
    have hlen0 : 0 < ((rowComponents cols j).map Prod.snd).length :=
      List.length_pos.mpr h
    have hlen : (0 : ℚ) < ((rowComponents cols j).map Prod.snd).length := by
      exact_mod_cast hlen0
    have hsum0 : 0 ≤ ((rowComponents cols j).map Prod.snd).sum :=
      List.sum_nonneg fun x hx => (hb x hx).1
    have hsum1 : ((rowComponents cols j).map Prod.snd).sum ≤
        ((rowComponents cols j).map Prod.snd).length • (100 : ℚ) :=
      List.sum_le_card_nsmul _ 100 fun x hx => (hb x hx).2
    rw [nsmul_eq_mul] at hsum1
    apply round1_bounds (div_nonneg hsum0 hlen.le)
    rw [div_le_iff hlen, mul_comm]
    exact hsum1

/-- C2: for every table of recorded distances (with `distance_km ≥ 0` as the
data model requires) and every row, the composite score lies in `[0, 100]`. -/
theorem composite_score_in_range (cols : List (Category × List (ℚ × String)))
    (nRows : Nat)
    (hd : ∀ e ∈ cols, ∀ v ∈ e.2, 0 ≤ v.1)
    (j : Nat) (s : ℚ)
    (hs : (calculateScores cols nRows).get? j = some s) :
    0 ≤ s ∧ s ≤ 100 := by
  rw [calculateScores, List.get?_map] at hs
  cases hr : (List.range nRows).get? j with
  | none =>
    rw [hr] at hs
    exact absurd hs (by simp)
  | some m =>
    rw [hr] at hs
    simp only [Option.map_some', Option.some.injEq] at hs
    subst hs
    exact scoreRow_in_range cols hd m

/-- Witness for C2 on a one-column, one-row table. -/
theorem composite_score_in_range_witness :
    0 ≤ scoreRow wCols 0 ∧ scoreRow wCols 0 ≤ 100 :=
  composite_score_in_range wCols 1 (by decide) 0 (scoreRow wCols 0) (by rfl)

/-- C3: each composite score is the arithmetic mean of the raw scores of
exactly the categories with data, rounded to 1 decimal place, and is the
defined fallback 0 when no category has data. -/
theorem composite_is_mean (cols : List (Category × List (ℚ × String)))
    (nRows : Nat) (j : Nat) (hj : j < nRows) :
    (calculateScores cols nRows).get? j = some
      (if rowComponents cols j = [] then 0
       else round1 (((rowComponents cols j).map Prod.snd).sum /
         ((rowComponents cols j).length : ℚ))) := by
  rw [calculateScores, List.get?_map, List.get?_range hj]
  simp only [Option.map_some', Option.some.injEq]
  rw [scoreRow]
  by_cases h : rowComponents cols j = []
  · rw [if_pos h, if_pos (by rw [h]; rfl), round1_zero]
  · rw [if_neg h, if_neg (by simpa using h)]
    rw [List.length_map]

/-- Witness for C3 on a one-column, one-row table. -/
theorem composite_is_mean_witness :
    (calculateScores wCols 1).get? 0 = some
      (if rowComponents wCols 0 = [] then 0
       else round1 (((rowComponents wCols 0).map Prod.snd).sum /
         ((rowComponents wCols 0).length : ℚ))) :=
  composite_is_mean wCols 1 0 (by decide)

/-- The category set feeding a row's components is the table-level set of
present distance columns, for any row index. -/
theorem map_fst_filterMap_lookup (cols : List (Category × List (ℚ × String)))
    (j : Nat) :
    ∀ l : List Category,
      (l.filterMap fun c =>
          (lookupCat c cols).map fun col => (c, rawScore c (colVal col j).1)).map
        Prod.fst = l.filter fun c => (lookupCat c cols).isSome
  | [] => rfl
  | c :: l => by
    cases h : lookupCat c cols with
    | none => simp [List.filterMap_cons, h, map_fst_filterMap_lookup cols j l]
    | some col => simp [List.filterMap_cons, h, map_fst_filterMap_lookup cols j l]

/-- `rowComponents`' category set, via the previous lemma. -/
theorem map_fst_rowComponents (cols : List (Category × List (ℚ × String))) (j : Nat) :
    (rowComponents cols j).map Prod.fst =
      categoryOrder.filter fun c => (lookupCat c cols).isSome := by
  rw [rowComponents]
  exact map_fst_filterMap_lookup cols j categoryOrder

/-- C10: the set of categories averaged into the composite score is decided
once per table by column presence, so every row shares the same category
set and the same denominator. -/
theorem scored_category_set_uniform (cols : List (Category × List (ℚ × String)))
    (j1 j2 : Nat) :
    (rowComponents cols j1).map Prod.fst =
      (categoryOrder.filter fun c => (lookupCat c cols).isSome) ∧
    (rowComponents cols j1).map Prod.fst = (rowComponents cols j2).map Prod.fst ∧
    (rowComponents cols j1).length = (rowComponents cols j2).length := by
  refine ⟨map_fst_rowComponents cols j1, ?_, ?_⟩
  · rw [map_fst_rowComponents, map_fst_rowComponents]
  · have h := congrArg List.length
      ((map_fst_rowComponents cols j1).trans (map_fst_rowComponents cols j2).symm)
    simpa using h

/-- C9: the pipeline is a pure function of its inputs — equal POI file
systems and equal neighborhood tables give identical distance columns and
composite scores, with no hidden state between runs. -/
theorem pipeline_deterministic (a : ℚ → ℚ → ℚ → ℚ → ℚ)
    (files1 files2 : Category → Option RawTable)
    (nbhds1 nbhds2 : List Neighborhood)
    (h1 : files1 = files2) (h2 : nbhds1 = nbhds2) :
    pipeline a files1 nbhds1 = pipeline a files2 nbhds2 := by
  rw [h1, h2]

/-- Witness for C9 at the sample neighborhoods and a concrete file system. -/
theorem pipeline_deterministic_witness :
    pipeline wMetric wGoodFiles createNeighborhoods =
      pipeline wMetric wGoodFiles createNeighborhoods :=
  pipeline_deterministic wMetric wGoodFiles wGoodFiles
    createNeighborhoods createNeighborhoods rfl rfl

/-- An association list with nodup keys maps each key to one value. -/
theorem nodupKeys_eq {β : Type} {c : Category} {x y : β} :
    ∀ {l : List (Category × β)}, (l.map Prod.fst).Nodup →
      (c, x) ∈ l → (c, y) ∈ l → x = y
  | [], _, hx, _ => absurd hx (by simp)
  | (c', v) :: rest, hnd, hx, hy => by
    rw [List.map_cons, List.nodup_cons] at hnd
    obtain ⟨hni, hndr⟩ := hnd
    rcases List.mem_cons.mp hx with hex | hx' <;>
      rcases List.mem_cons.mp hy with hey | hy'
    · rw [Prod.mk.injEq] at hex hey
      rw [hex.2, hey.2]
    · rw [Prod.mk.injEq] at hex
      exact absurd (List.mem_map.mpr ⟨(c, y), hy', hex.1⟩) hni
    · rw [Prod.mk.injEq] at hey
      exact absurd (List.mem_map.mpr ⟨(c, x), hx', hey.1⟩) hni
    · exact nodupKeys_eq hndr hx' hy'

/-- C5: a loaded category with zero POIs contributes no distance or
nearest-name column to the result, and the composite components of every
row draw only on the present columns, hence never on that category. -/
theorem empty_category_absent (a : ℚ → ℚ → ℚ → ℚ → ℚ)
    (nbhds : List Neighborhood) (pois : List (Category × List RawRow))
    (res : List (Category × List (ℚ × String))) (c : Category)
    (hok : findNearestPois a nbhds pois = Except.ok res)
    (hnd : (pois.map Prod.fst).Nodup)
    (hmem : (c, ([] : List RawRow)) ∈ pois) :
    lookupCat c res = none ∧
    ∀ j : Nat, c ∉ (rowComponents res j).map Prod.fst := by
  have hnotin : c ∉ res.map Prod.fst := by
    intro hin
    obtain ⟨rows, hrows, hne⟩ := findNearestPois_keys a nbhds pois res hok c hin
    exact hne (nodupKeys_eq hnd hrows hmem)
  refine ⟨lookupCat_not_mem hnotin, fun j hj => ?_⟩
  rw [map_fst_rowComponents] at hj
  have h2 := List.of_mem_filter hj
  rw [lookupCat_not_mem hnotin] at h2
  simp at h2

/-- Witness for C5: the empty clinics category of `wPois5`. -/
theorem empty_category_absent_witness :
    lookupCat Category.clinics wRes = none ∧
    ∀ j : Nat, Category.clinics ∉ (rowComponents wRes j).map Prod.fst :=
  empty_category_absent wMetric [wN] wPois5 wRes Category.clinics
    (by rfl) (by decide) (by decide)

/-- A fully well-formed row list parses. -/
theorem parseRows_isSome :
    ∀ rows : List RawRow, (∀ r ∈ rows, (parseRow r).isSome) →
      ∃ ps, parseRows rows = some ps
  | [], _ => ⟨[], rfl⟩
  | r :: rs, h => by
    obtain ⟨p, hp⟩ := Option.isSome_iff_exists.mp (h r (List.mem_cons_self _ _))
    obtain ⟨ps, hps⟩ :=
      parseRows_isSome rs fun r' hr' => h r' (List.mem_cons_of_mem _ hr')
    rw [parseRows, hp, hps]
    exact ⟨p :: ps, rfl⟩

/-- The resolver succeeds on an input whose rows all parse. -/
theorem findNearestPois_ok (a : ℚ → ℚ → ℚ → ℚ → ℚ) (nbhds : List Neighborhood) :
    ∀ pois : List (Category × List RawRow),
      (∀ cr ∈ pois, ∀ r ∈ cr.2, (parseRow r).isSome) →
      ∃ res, findNearestPois a nbhds pois = Except.ok res
  | [], _ => ⟨[], rfl⟩
  | (c, rows) :: rest, hall => by
    obtain ⟨res', hres'⟩ := findNearestPois_ok a nbhds rest
      fun cr hcr => hall cr (List.mem_cons_of_mem _ hcr)
    rw [findNearestPois]
    by_cases hr : rows = []
    · rw [if_pos hr]
      exact ⟨res', hres'⟩
    · rw [if_neg hr]
      obtain ⟨ps, hps⟩ := parseRows_isSome rows
        fun r hr' => hall (c, rows) (List.mem_cons_self _ _) r hr'
      rw [hps, hres']
      exact ⟨_, rfl⟩

/-- Every entry of the loader's output is the unchanged row list of an
existing file with both coordinate columns. -/
theorem loadPois_mem {files : Category → Option RawTable} {c : Category}
    {rows : List RawRow} (h : (c, rows) ∈ loadPois files) :
    ∃ t, files c = some t ∧ t.hasLatLon = true ∧ rows = t.rows := by
  rw [loadPois] at h
  obtain ⟨c', hc', hf⟩ := List.mem_filterMap.mp h
  cases hla : loadAux files c' <;> rw [hla] at hf
  · simp at hf
  · simp only [Option.map_some', Option.some.injEq] at hf
    rw [Prod.mk.injEq] at hf
    obtain ⟨h1, h2⟩ := hf
    subst h1
    subst h2
    rw [loadAux] at hla
    cases hgt : files c' <;> rw [hgt] at hla
    · simp at hla
    · rename_i t
      simp at hla
      exact ⟨t, rfl, hla.1, hla.2.symm⟩

/-- C6 counterexample: a schools file whose coordinate columns exist but
whose second row holds an unparseable latitude crashes the pipeline with an
uncaught `TypeError` instead of degrading gracefully. -/
theorem pipeline_crashes_on_malformed_value :
    runPipeline wMetric wBadFiles =
      Except.error "TypeError: radians is unsupported for str input" := by rfl

/-- C6 amended: over inputs whose loaded coordinate cells are all numeric —
any combination of missing files, missing coordinate columns, empty
categories and neighborhoods with no scorable categories — the pipeline
core completes without an uncaught error, and the worst case is a
neighborhood with composite score 0 and no distance fields. -/
theorem pipeline_total_on_wellformed (a : ℚ → ℚ → ℚ → ℚ → ℚ)
    (files : Category → Option RawTable)
    (hwf : ∀ c : Category, ∀ t : RawTable, files c = some t →
      ∀ r ∈ t.rows, (parseRow r).isSome) :
    ∃ out, pipeline a files createNeighborhoods = Except.ok out ∧
      ∀ cols scores, out = some (cols, scores) → cols = [] →
        ∀ s ∈ scores, s = 0 := by
  by_cases hp : loadPois files = []
  · refine ⟨none, ?_, ?_⟩
    · rw [pipeline, if_pos hp]
    · intro cols scores h
      exact absurd h (by simp)
  · have hall : ∀ cr ∈ loadPois files, ∀ r ∈ cr.2, (parseRow r).isSome := by
      intro cr hcr r hr
      obtain ⟨c0, rows0⟩ := cr
      obtain ⟨t, ht, _, hrows⟩ := loadPois_mem hcr
      exact hwf c0 t ht r (hrows ▸ hr)
    obtain ⟨res, hres⟩ := findNearestPois_ok a createNeighborhoods (loadPois files) hall
    refine ⟨some (res, calculateScores res createNeighborhoods.length), ?_, ?_⟩
    · rw [pipeline, if_neg hp, hres]
      rfl
    · intro cols scores h hcols s hsmem
      injection h with h
      rw [Prod.mk.injEq] at h
      obtain ⟨h1, h2⟩ := h
      subst h1
      subst h2
      subst hcols
      obtain ⟨m, _, hsj⟩ := List.mem_map.mp hsmem
      rw [← hsj, scoreRow]
      have hrc : rowComponents ([] : List (Category × List (ℚ × String))) m = [] := rfl
      rw [hrc]
      simp only [List.map_nil, if_pos]
      exact round1_zero

/-- Witness for C6 (amended) at a well-formed single-category file system. -/
theorem pipeline_total_on_wellformed_witness :
    ∃ out, pipeline wMetric wGoodFiles createNeighborhoods = Except.ok out ∧
      ∀ cols scores, out = some (cols, scores) → cols = [] →
        ∀ s ∈ scores, s = 0 :=
  pipeline_total_on_wellformed wMetric wGoodFiles (by
    intro c t ht r hr
    cases c <;> simp [wGoodFiles] at ht
    subst ht
    simp [wRows] at hr
    rcases hr with h | h <;> subst h <;> decide)

/-- Looking a category up in the loader's output is exactly `loadAux`. -/
theorem lookup_filterMap_pairs (g : Category → Option (List RawRow)) :
    ∀ l : List Category, l.Nodup → ∀ c ∈ l,
      lookupCat c (l.filterMap fun c' => (g c').map fun rows => (c', rows)) = g c
  | [], _, c, hc => absurd hc (by simp)
  | c' :: l, hnd, c, hc => by
    rw [List.nodup_cons] at hnd
    obtain ⟨hni, hndl⟩ := hnd
    have hkeys : ∀ c₀, c₀ ∈ ((l.filterMap fun c₁ =>
        (g c₁).map fun rows => (c₁, rows)).map Prod.fst) → c₀ ∈ l := by
      intro c₀ hc₀
      obtain ⟨⟨c₁, rows⟩, hmem, heq⟩ := List.mem_map.mp hc₀
      obtain ⟨c₂, hc₂, hf⟩ := List.mem_filterMap.mp hmem
      cases hg : g c₂ <;> rw [hg] at hf
      · simp at hf
      · simp only [Option.map_some', Option.some.injEq] at hf
        rw [Prod.mk.injEq] at hf
        cases heq
        cases hf.1
        exact hc₂
    rcases List.mem_cons.mp hc with rfl | hcl
    · cases hg : g c with
      | none =>
        rw [List.filterMap_cons, hg]
        apply lookupCat_not_mem
        intro hin
        exact hni (hkeys c hin)
      | some rows =>
        rw [List.filterMap_cons, hg]
        simp only [Option.map_some']
        rw [lookupCat]
        simp
    · have hne : c' ≠ c := fun he => hni (he ▸ hcl)
      cases hg : g c' with
      | none =>
        rw [List.filterMap_cons, hg]
        exact lookup_filterMap_pairs g l hndl c hcl
      | some rows =>
        rw [List.filterMap_cons, hg]
        simp only [Option.map_some']
        rw [lookupCat, if_neg hne]
        exact lookup_filterMap_pairs g l hndl c hcl

/-- The loader's association list realises `loadAux` at every category. -/
theorem loadPois_lookup (files : Category → Option RawTable) (c : Category) :
    lookupCat c (loadPois files) = loadAux files c := by
  rw [loadPois]
  exact lookup_filterMap_pairs (loadAux files) categoryOrder (by decide) c
    (by cases c <;> decide)

/-- A nonempty category whose rows fail to parse aborts the resolver. -/
theorem findNearestPois_error (a : ℚ → ℚ → ℚ → ℚ → ℚ) (nbhds : List Neighborhood) :
    ∀ (pois : List (Category × List RawRow)) (c : Category) (rows : List RawRow),
      (c, rows) ∈ pois → rows ≠ [] → parseRows rows = none →
      ∃ e, findNearestPois a nbhds pois = Except.error e
  | [], c, rows, hmem, _, _ => absurd hmem (by simp)
  | (c', rows') :: rest, c, rows, hmem, hne, hpar => by
    rw [findNearestPois]
    rcases List.mem_cons.mp hmem with heq | hmem'
    · rw [Prod.mk.injEq] at heq
      obtain ⟨h1, h2⟩ := heq
      subst h1
      subst h2
      rw [if_neg hne, hpar]
      exact ⟨_, rfl⟩
    · by_cases hr : rows' = []
      · rw [if_pos hr]
        exact findNearestPois_error a nbhds rest c rows hmem' hne hpar
      · rw [if_neg hr]
        cases hps : parseRows rows' with
        | none => exact ⟨_, rfl⟩
        | some ps =>
          obtain ⟨e, he⟩ := findNearestPois_error a nbhds rest c rows hmem' hne hpar
          rw [he]
          exact ⟨e, rfl⟩

/-- C7 counterexample: the loader keeps a row with an unparseable latitude —
it does not skip the malformed row and continue with the rest. -/
theorem loader_keeps_malformed_row :
    loadPois wBadFiles = [(Category.schools, [wRow1, wBadRow])] ∧
    loadPois wBadFiles ≠ [(Category.schools, [wRow1])] := by
  constructor <;> decide

/-- C7 amended: the loader performs no row-level filtering — a category with
both coordinate columns is loaded with its rows unchanged (a malformed row
included, which then makes the resolver of that run fail), and only a
missing file or missing coordinate columns skip the category, while the
remaining categories still load. -/
theorem loader_no_row_filtering (files : Category → Option RawTable)
    (c : Category) :
    lookupCat c (loadPois files) = loadAux files c ∧
    (∀ t, files c = some t → t.hasLatLon = true →
      lookupCat c (loadPois files) = some t.rows) ∧
    (∀ t, files c = some t → t.hasLatLon = false →
      lookupCat c (loadPois files) = none) ∧
    (files c = none → lookupCat c (loadPois files) = none) ∧
    (∀ rows, lookupCat c (loadPois files) = some rows → rows ≠ [] →
      parseRows rows = none → ∀ (a : ℚ → ℚ → ℚ → ℚ → ℚ) nbhds,
        ∃ e, findNearestPois a nbhds (loadPois files) = Except.error e) := by
  refine ⟨loadPois_lookup files c, ?_, ?_, ?_, ?_⟩
  · intro t ht hll
    rw [loadPois_lookup, loadAux, ht]
    simp [hll]
  · intro t ht hll
    rw [loadPois_lookup, loadAux, ht]
    simp [hll]
  · intro ht
    rw [loadPois_lookup, loadAux, ht]
  · intro rows hl hne hpar a nbhds
    exact findNearestPois_error a nbhds (loadPois files) c rows
      (lookupCat_mem hl) hne hpar

/-- Witness for C7 (amended): the malformed schools file is loaded with its
bad row kept, and the resolver then fails on it. -/
theorem loader_no_row_filtering_witness :
    lookupCat Category.schools (loadPois wBadFiles) =
      loadAux wBadFiles Category.schools ∧
    ∃ e, findNearestPois wMetric [wN] (loadPois wBadFiles) = Except.error e :=
  ⟨(loader_no_row_filtering wBadFiles Category.schools).1,
    (loader_no_row_filtering wBadFiles Category.schools).2.2.2.2
      [wRow1, wBadRow] (by decide) (by decide) (by decide) wMetric [wN]⟩

end NI
